import Mathlib

/-!
Inter-process transfer over a shared memory segment and a Unix domain socket.

A shallow embedding of the five programs of the repository:

* `SharedMemory/shared_memory_server.cpp` and `shared_memory_client.cpp`
  (key/value record through a 1 MiB POSIX shared memory segment),
* `UnixDomainSocket/unix_domain_socket_server.cpp` and
  `unix_domain_socket_client.cpp` (the same record over a stream socket),
* `benchmark/benchmark_server.cpp` (one length-framed payload over either
  transport).

Memory is a map from offsets to bytes with the mapping length kept beside it;
a `memcpy` outside the mapping is a fault.  System calls whose result the
program cannot determine (`socket`, `listen`, `accept`, `send`, `recv`, ...)
are answered by an explicit record of results that every definition takes as
an argument.  Every `send` is called with flags 0 and no program changes the
disposition of `SIGPIPE`, so a `send` on a connection the peer has closed
terminates the process inside the call; the records say at which calls that
happens.  Console output, `close`, timing, the names of shared memory
objects (`shm_open` / `shm_unlink`) and allocation failure are not represented.
-/

namespace IPC

/-! ## Bytes, `size_t` and mapped memory -/

/-- One `char` / `uint8_t`. -/
abbrev Byte := Fin 256

/-- Byte order of the host: both ends of a transfer run on the same machine. -/
inductive ByteOrder where
  | little
  | big
deriving DecidableEq, Repr

/-- The value `sizeof(size_t)` on the 64-bit hosts the programs target. -/
def sizeof_size_t : Nat := 8

/-- The `w` low-order base-256 digits of `n`, least significant first. -/
def toLE : Nat → Nat → List Byte
  | 0, _ => []
  | w + 1, n => Fin.ofNat n :: toLE w (n / 256)

/-- The number whose base-256 digits, least significant first, are `bs`. -/
def fromLE : List Byte → Nat
  | [] => 0
  | b :: bs => b.val + 256 * fromLE bs

/-- Object representation of a `size_t` holding `n` (reduced modulo `2 ^ 64`):
the bytes that `memcpy(dst, &n, sizeof(n))` and `send(fd, &n, sizeof(n), 0)`
read. -/
def sizeBytes (o : ByteOrder) (n : Nat) : List Byte :=
  match o with
  | .little => toLE sizeof_size_t n
  | .big => (toLE sizeof_size_t n).reverse

/-- Value of a `size_t` whose object representation is `bs`: what
`memcpy(&n, src, sizeof(n))` and `recv(fd, &n, sizeof(n), 0)` leave in `n`. -/
def sizeOfBytes (o : ByteOrder) (bs : List Byte) : Nat :=
  match o with
  | .little => fromLE bs
  | .big => fromLE bs.reverse

/-- Contents of a mapping, by offset from its base address. -/
abbrev Mem := Nat → Byte

/-- A freshly created segment after `ftruncate`: all bytes zero. -/
def zeroMem : Mem := fun _ => 0

/-- The `len` bytes at offsets `off, off + 1, ...` of a mapping. -/
def Mem.bytes (m : Mem) (off len : Nat) : List Byte :=
  (List.range len).map (fun i => m (off + i))

/-- The mapping after `src` has been copied to offset `off`. -/
def Mem.store (m : Mem) (off : Nat) (src : List Byte) : Mem :=
  fun i => if off ≤ i ∧ i < off + src.length then src.getD (i - off) 0 else m i

/-- Result of code that touches mapped memory: a value, or the first access
`[off, off + len)` that does not lie inside the mapping (undefined behaviour
in the source). -/
inductive Access (α : Type) where
  | ok (a : α)
  | fault (off len : Nat)
deriving DecidableEq, Repr

/-- Sequencing: a fault ends the computation. -/
def Access.bind {α β : Type} (x : Access α) (f : α → Access β) : Access β :=
  match x with
  | .ok a => f a
  | .fault off len => .fault off len

instance : Monad Access where
  pure := Access.ok
  bind := Access.bind

/-- Copy `src` into a mapping of `cap` bytes at offset `off`
(`memcpy(base + off, src, src.length)`). -/
def memcpy_to (cap : Nat) (m : Mem) (off : Nat) (src : List Byte) : Access Mem :=
  if off + src.length ≤ cap then .ok (m.store off src) else .fault off src.length

/-- Copy `len` bytes out of a mapping of `cap` bytes from offset `off`
(`memcpy(dst, base + off, len)`, `std::string(base + off, len)`). -/
def memcpy_from (cap : Nat) (m : Mem) (off len : Nat) : Access (List Byte) :=
  if off + len ≤ cap then .ok (m.bytes off len) else .fault off len

/-! ## The socket namespace and the stream primitives -/

/-- The call `unlink(path)`: the name is gone afterwards (an absent name is
not an error the programs look at). -/
def unlink (names : List String) (path : String) : List String :=
  names.filter (fun n => n != path)

/-- The call `bind(fd, path)`: fails (`-1`) when the name exists or the system
refuses for another reason, otherwise creates the name and returns `0`. -/
def bind (refused : Bool) (names : List String) (path : String) : Int × List String :=
  if refused || names.contains path then (-1, names) else (0, path :: names)

/-- Bytes that a `send(fd, buf, len, 0)` returning `r` has put on the
connection: nothing when it failed, else the first `r` bytes of `buf`. -/
def transmitted (r : Int) (buf : List Byte) : List Byte :=
  if r < 0 then [] else buf.take r.toNat

/-- A `recv(fd, buf, len, 0)` returning `r ≥ 0`: the first `r` pending bytes
(never more than `len`) overwrite the start of `buf`; the rest of `buf` keeps
its content.  Returns the buffer and the bytes still pending. -/
def received (r : Int) (len : Nat) (buf pending : List Byte) : List Byte × List Byte :=
  let got := (pending.take len).take r.toNat
  (got ++ buf.drop got.length, pending.drop got.length)

/-! ## `SharedMemory/shared_memory_server.cpp` -/

namespace SharedMemoryServer

/-- Capacity of the segment. -/
def SHM_SIZE : Nat := 1024 * 1024

/-- The literal `"name"`. -/
def key : List Byte := [110, 97, 109, 101]

/-- The literal `"John Doe"`. -/
def value : List Byte := [74, 111, 104, 110, 32, 68, 111, 101]

/-- Body of `main` from `// Store object` on, for an arbitrary key and value
(`strlen` of a C string is the length of its byte list).  `shm` is the content
of the mapping when the stores begin; the result is its content afterwards,
paired with the final `offset`. -/
def mainWith (o : ByteOrder) (shm : Mem) (key value : List Byte) : Access (Mem × Nat) := do
  let offset := 0
  let key_len := key.length
  let value_len := value.length
  let shm ← memcpy_to SHM_SIZE shm offset (sizeBytes o key_len)
  let offset := offset + sizeof_size_t
  let shm ← memcpy_to SHM_SIZE shm offset key
  let offset := offset + key_len
  let shm ← memcpy_to SHM_SIZE shm offset (sizeBytes o value_len)
  let offset := offset + sizeof_size_t
  let shm ← memcpy_to SHM_SIZE shm (offset + sizeof_size_t) value
  let offset := offset + value_len
  pure (shm, offset)

/-- The program as written: key `"name"`, value `"John Doe"`. -/
def main (o : ByteOrder) (shm : Mem) : Access (Mem × Nat) :=
  mainWith o shm key value

end SharedMemoryServer

/-! ## `SharedMemory/shared_memory_client.cpp` -/

namespace SharedMemoryClient

/-- Length of the read-only mapping. -/
def SHM_SIZE : Nat := 1024 * 1024

/-- Body of `main`: the key and value it retrieves from the mapping `shm`.
Failure of `std::string` to allocate is not represented. -/
def main (o : ByteOrder) (shm : Mem) : Access (List Byte × List Byte) := do
  let offset := 0
  let key_len := sizeOfBytes o (← memcpy_from SHM_SIZE shm offset sizeof_size_t)
  let offset := offset + sizeof_size_t
  let key ← memcpy_from SHM_SIZE shm offset key_len
  let offset := offset + key_len
  let value_len := sizeOfBytes o (← memcpy_from SHM_SIZE shm offset sizeof_size_t)
  let offset := offset + sizeof_size_t
  let value ← memcpy_from SHM_SIZE shm offset value_len
  pure (key, value)

end SharedMemoryClient

/-! ## `UnixDomainSocket/unix_domain_socket_server.cpp` -/

namespace UnixDomainSocketServer

/-- Name of the endpoint. -/
def SOCKET_PATH : String := "/tmp/unix_domain_socket_example"

/-- The literal `"name"`. -/
def key : List Byte := [110, 97, 109, 101]

/-- The literal `"John Doe"`. -/
def value : List Byte := [74, 111, 104, 110, 32, 68, 111, 101]

/-- Results of the system calls of one run.  `send i len` is what the `i`-th
`send` call (counted from 0) returns when asked to transmit `len` bytes;
`sigpipe i` says that the peer has closed the connection when that call is
made, so that the call raises `SIGPIPE` and does not return. -/
structure Os where
  socket : Int
  bind_refused : Bool
  listen : Int
  accept : Int
  send : Nat → Nat → Int
  sigpipe : Nat → Bool

/-- What a run leaves behind: the value returned by `main` (`none` when
`SIGPIPE` terminated the process before `main` returned), the bytes put on the
connection, the names in the socket namespace, and whether `bind` succeeded
during the run. -/
structure Exit where
  status : Option Int
  wire : List Byte
  names : List String
  bound : Bool

/-- The function `main`, for an arbitrary key and value; `names` is the socket
namespace when the program starts. -/
def mainWith (o : ByteOrder) (os : Os) (names : List String) (key value : List Byte) : Exit :=
  if os.socket < 0 then ⟨some 1, [], names, false⟩
  else
    let names := unlink names SOCKET_PATH
    let b := bind os.bind_refused names SOCKET_PATH
    if b.1 < 0 then ⟨some 1, [], b.2, false⟩
    else if os.listen < 0 then ⟨some 1, [], unlink b.2 SOCKET_PATH, true⟩
    else if os.accept < 0 then ⟨some 1, [], unlink b.2 SOCKET_PATH, true⟩
    else
      let key_len := key.length
      let value_len := value.length
      -- a send that returns a negative value only prints a message and
      -- execution continues; a send that raises SIGPIPE ends the process there
      if os.sigpipe 0 then ⟨none, [], b.2, true⟩
      else
        let wire := transmitted (os.send 0 sizeof_size_t) (sizeBytes o key_len)
        if os.sigpipe 1 then ⟨none, wire, b.2, true⟩
        else
          let wire := wire ++ transmitted (os.send 1 key_len) key
          if os.sigpipe 2 then ⟨none, wire, b.2, true⟩
          else
            let wire := wire ++ transmitted (os.send 2 sizeof_size_t) (sizeBytes o value_len)
            if os.sigpipe 3 then ⟨none, wire, b.2, true⟩
            else
              let wire := wire ++ transmitted (os.send 3 value_len) value
              ⟨some 0, wire, unlink b.2 SOCKET_PATH, true⟩

/-- The program as written: key `"name"`, value `"John Doe"`. -/
def main (o : ByteOrder) (os : Os) (names : List String) : Exit :=
  mainWith o os names key value

end UnixDomainSocketServer

/-! ## `UnixDomainSocket/unix_domain_socket_client.cpp` -/

namespace UnixDomainSocketClient

/-- Results of the system calls of one run, and the indeterminate values the
uninitialised locals `key_len` and `value_len` hold before `recv` fills them.
`recv i len` is what the `i`-th `recv` call (counted from 0) returns when asked
for `len` bytes. -/
structure Os where
  socket : Int
  connect : Int
  recv : Nat → Nat → Int
  key_len : Nat
  value_len : Nat

/-- The value returned by `main` and the key and value it retrieved, if it got
that far. -/
structure Exit where
  status : Int
  retrieved : Option (List Byte × List Byte)
deriving DecidableEq, Repr

/-- The function `main`; `stream` is the byte stream arriving on the
connection.  Failure of `std::string` to allocate is not represented. -/
def main (o : ByteOrder) (os : Os) (stream : List Byte) : Exit :=
  if os.socket < 0 then ⟨1, none⟩
  else if os.connect < 0 then ⟨1, none⟩
  else
    let r := os.recv 0 sizeof_size_t
    if r < 0 then ⟨1, none⟩
    else
      let k := received r sizeof_size_t (sizeBytes o os.key_len) stream
      let key_len := sizeOfBytes o k.1
      let r := os.recv 1 key_len
      if r < 0 then ⟨1, none⟩
      else
        let key := received r key_len (List.replicate key_len 0) k.2
        let r := os.recv 2 sizeof_size_t
        if r < 0 then ⟨1, none⟩
        else
          let v := received r sizeof_size_t (sizeBytes o os.value_len) key.2
          let value_len := sizeOfBytes o v.1
          let r := os.recv 3 value_len
          if r < 0 then ⟨1, none⟩
          else
            let value := received r value_len (List.replicate value_len 0) v.2
            ⟨0, some (key.1, value.1)⟩

end UnixDomainSocketClient

/-! ## `benchmark/benchmark_server.cpp` -/

namespace BenchmarkServer

/-- Capacity of the segment: 10 MB. -/
def SHM_SIZE : Nat := 10 * 1024 * 1024

/-- Name of the endpoint. -/
def SOCKET_PATH : String := "/tmp/benchmark_unix_socket"

/-- Results of the system calls of `setup_shared_memory`: the descriptor from
`shm_open`, the result of `ftruncate`, and whether `mmap` gave `MAP_FAILED`. -/
structure ShmOs where
  shm_open : Int
  ftruncate : Int
  map_failed : Bool

/-- The function `setup_shared_memory`: the content of the segment when the
function stops, and its return value (or the faulting copy).  `shm` is the
content of the segment when it is mapped; `data.size()` is the length of the
list. -/
def setup_shared_memory (o : ByteOrder) (os : ShmOs) (shm : Mem) (data : List Byte) :
    Mem × Access Int :=
  let shm_fd := os.shm_open
  if shm_fd < 0 then (shm, .ok (-1))
  else if os.ftruncate = -1 then (shm, .ok (-1))
  else if os.map_failed then (shm, .ok (-1))
  else
    let data_size := data.length
    match memcpy_to SHM_SIZE shm 0 (sizeBytes o data_size) with
    | .fault off len => (shm, .fault off len)
    | .ok shm1 =>
      match memcpy_to SHM_SIZE shm1 sizeof_size_t (data.take data_size) with
      | .fault off len => (shm1, .fault off len)
      | .ok shm2 => (shm2, .ok shm_fd)

/-- Results of the system calls of the socket mode.  `send i len` is what the
`i`-th `send` call (counted from 0) returns when asked to transmit `len`
bytes; `sigpipe i` says that the peer has closed the connection when that call
is made, so that the call raises `SIGPIPE` and does not return. -/
structure SocketOs where
  socket : Int
  bind_refused : Bool
  listen : Int
  accept : Int
  send : Nat → Nat → Int
  sigpipe : Nat → Bool

/-- What `setup_unix_socket` leaves behind: its return value, the socket
namespace, and whether `bind` succeeded. -/
structure Listener where
  fd : Int
  names : List String
  bound : Bool

/-- The function `setup_unix_socket`. -/
def setup_unix_socket (os : SocketOs) (names : List String) : Listener :=
  let server_fd := os.socket
  if server_fd < 0 then ⟨-1, names, false⟩
  else
    let names := unlink names SOCKET_PATH
    let b := bind os.bind_refused names SOCKET_PATH
    if b.1 < 0 then ⟨-1, b.2, false⟩
    else if os.listen < 0 then ⟨-1, unlink b.2 SOCKET_PATH, true⟩
    else ⟨server_fd, b.2, true⟩

/-- Progress of `send_data_over_socket`: the local `total_sent`, the results
of the `send` calls made so far, and the chunk each of them put on the
connection, both in call order. -/
structure Sending where
  total_sent : Nat
  results : List Int
  chunks : List (List Byte)
deriving DecidableEq, Repr

/-- All bytes put on the connection so far. -/
def Sending.wire (s : Sending) : List Byte := s.chunks.flatten

/-- Number of bytes handed over by the first `k` of the `send` calls whose
results are `rs` (a negative result hands over nothing). -/
def handedOver (rs : List Int) (k : Nat) : Nat :=
  ((rs.take k).map Int.toNat).sum

/-- A run of `send_data_over_socket` observed for a bounded number of loop
iterations: it has returned, or the loop condition still holds. -/
inductive Run where
  | returned (b : Bool) (s : Sending)
  | running (s : Sending)
deriving DecidableEq, Repr

/-- The state reached. -/
def Run.state : Run → Sending
  | .returned _ s => s
  | .running s => s

/-- The `while (total_sent < data_size)` loop of `send_data_over_socket`,
followed for at most `fuel` iterations. -/
def sendLoop (send : Nat → Nat → Int) (data : List Byte) (data_size : Nat) :
    Nat → Sending → Run
  | fuel, s =>
    if s.total_sent < data_size then
      match fuel with
      | 0 => .running s
      | fuel + 1 =>
        let sent := send s.results.length (data_size - s.total_sent)
        let s1 : Sending :=
          ⟨s.total_sent, s.results ++ [sent],
            s.chunks ++ [transmitted sent ((data.drop s.total_sent).take (data_size - s.total_sent))]⟩
        if sent < 0 then .returned false s1
        else sendLoop send data data_size fuel
          ⟨(s.total_sent + sent.toNat) % 2 ^ 64, s1.results, s1.chunks⟩
    else .returned true s

/-- The function `send_data_over_socket`, its loop followed for at most `fuel`
iterations. -/
def send_data_over_socket (o : ByteOrder) (send : Nat → Nat → Int) (fuel : Nat)
    (data : List Byte) : Run :=
  let data_size := data.length
  let sent := send 0 sizeof_size_t
  let s : Sending := ⟨0, [sent], [transmitted sent (sizeBytes o data_size)]⟩
  if sent < 0 then .returned false s
  else sendLoop send data data_size fuel s

/-- What a run of `main` leaves behind. `status` is the value returned by
`main` (or the faulting copy), and `none` when `SIGPIPE` terminated the
process before `main` returned; `shm` the content of the segment; `wire` the
bytes put on the connection; `names` the socket namespace; `bound` whether
`bind` succeeded during the run. -/
structure Exit where
  status : Option (Access Int)
  shm : Mem
  wire : List Byte
  names : List String
  bound : Bool

/-- The first of the `send` calls `0, ..., calls - 1` at which the peer has
closed the connection. -/
def firstSigpipe (sigpipe : Nat → Bool) (calls : Nat) : Option Nat :=
  (List.range calls).find? sigpipe

/-- The function `main`.  `argc`, `mode` and `data_size_kb` are the argument
count, `argv[1]` and `std::stoul(argv[2])`; `rand i` is the `i`-th result of
`rand()`.  The result is `none` when the send loop is still running after
`fuel` iterations.

`send_data_over_socket` describes the `send` calls for as long as each of
them returns.  The process is terminated inside the first call it makes at
which the peer has closed the connection: the chunks of the earlier calls are
on the wire, nothing after that call happens, and in particular neither
`unlink` is reached. -/
def main (o : ByteOrder) (shmOs : ShmOs) (os : SocketOs) (rand : Nat → Nat) (fuel : Nat)
    (shm : Mem) (names : List String) (argc : Nat) (mode : String) (data_size_kb : Nat) :
    Option Exit :=
  if argc < 3 then some ⟨some (.ok 1), shm, [], names, false⟩
  else
    let data_size_bytes := (data_size_kb * 1024) % 2 ^ 64
    let data : List Byte := (List.range data_size_bytes).map (fun i => Fin.ofNat (rand i % 256))
    if mode = "shm" then
      let r := setup_shared_memory o shmOs shm data
      match r.2 with
      | .fault off len => some ⟨some (.fault off len), r.1, [], names, false⟩
      | .ok shm_fd =>
        if shm_fd < 0 then some ⟨some (.ok 1), r.1, [], names, false⟩
        else some ⟨some (.ok 0), r.1, [], names, false⟩
    else if mode = "socket" then
      let l := setup_unix_socket os names
      if l.fd < 0 then some ⟨some (.ok 1), shm, [], l.names, l.bound⟩
      else if os.accept < 0 then
        some ⟨some (.ok 1), shm, [], unlink l.names SOCKET_PATH, l.bound⟩
      else
        -- the send calls of `send_data_over_socket` are the first on this connection
        let run := send_data_over_socket o os.send fuel data
        match firstSigpipe os.sigpipe run.state.results.length with
        | some i => some ⟨none, shm, (run.state.chunks.take i).flatten, l.names, l.bound⟩
        | none =>
          match run with
          | .running _ => none
          | .returned false s =>
            some ⟨some (.ok 1), shm, s.wire, unlink l.names SOCKET_PATH, l.bound⟩
          | .returned true s =>
            some ⟨some (.ok 0), shm, s.wire, unlink l.names SOCKET_PATH, l.bound⟩
    else some ⟨some (.ok 1), shm, [], names, false⟩

end BenchmarkServer

/-! ## Concrete runs -/

/-- A 1 MiB region whose first field declares a key one byte longer than what
remains after the length field: `SHM_SIZE - 8 + 1 = 1048569`. -/
def overlongKeyRegion (o : ByteOrder) : Mem :=
  zeroMem.store 0 (sizeBytes o 1048569)

/-- A region holding the well-formed frame of `"name"` / `"John Doe"`. -/
def framedRegion (o : ByteOrder) : Mem :=
  zeroMem.store 0
    (sizeBytes o 4 ++ SharedMemoryServer.key ++ sizeBytes o 8 ++ SharedMemoryServer.value)

/-- All three system calls of `setup_shared_memory` succeed; descriptor 3. -/
def shmOsOk : BenchmarkServer.ShmOs := ⟨3, 0, false⟩

/-- A payload of 10240 KB. -/
def payload10240KB : List Byte := List.replicate (10240 * 1024) 0

/-- A payload of three bytes. -/
def payload3 : List Byte := [1, 2, 3]

/-- Every `send` transmits all it is asked to. -/
def sendAll : Nat → Nat → Int := fun _ len => len

/-- The first `send` hands over 4 of the 8 length bytes; every later one is
complete. -/
def sendHalfLength : Nat → Nat → Int := fun i len => if i = 0 then 4 else len

/-- After a complete first `send`, every later one transmits a single byte. -/
def sendByteByByte : Nat → Nat → Int := fun i _ => if i = 0 then 8 else 1

/-- A server run in which every system call succeeds and every `send`
transmits all it is asked to. -/
def serverOsOk : UnixDomainSocketServer.Os := ⟨3, false, 0, 4, sendAll, fun _ => false⟩

/-- A server run in which the first `send` (the key length) fails and the
other three are complete. -/
def serverOsFirstSendFails : UnixDomainSocketServer.Os :=
  ⟨3, false, 0, 4, fun i len => if i = 0 then -1 else len, fun _ => false⟩

/-- A client run in which every `recv` delivers the count requested. -/
def clientOsOk : UnixDomainSocketClient.Os := ⟨3, 0, fun _ len => len, 0, 0⟩

/-- A client run in which the last `recv` (the value) delivers 3 bytes and the
others deliver the count requested. -/
def clientOsShortValue : UnixDomainSocketClient.Os :=
  ⟨3, 0, fun i len => if i = 3 then 3 else len, 0, 0⟩

/-- A server run in which the client connects and closes at once: the first
`send` raises `SIGPIPE`. -/
def serverOsPeerClosed : UnixDomainSocketServer.Os :=
  ⟨3, false, 0, 4, sendAll, fun _ => true⟩

/-- A benchmark run in socket mode in which the client connects and closes
at once: the first `send` raises `SIGPIPE`. -/
def benchOsPeerClosed : BenchmarkServer.SocketOs :=
  ⟨3, false, 0, 4, sendAll, fun _ => true⟩

/-- A benchmark run in socket mode in which every system call succeeds and
every `send` transmits all it is asked to. -/
def benchOsOk : BenchmarkServer.SocketOs :=
  ⟨3, false, 0, 4, sendAll, fun _ => false⟩

/-! ## Lemmas: the `size_t` encoding and mapped memory -/

theorem fromLE_toLE (w n : Nat) : fromLE (toLE w n) = n % 256 ^ w := by
  induction w generalizing n with
  | zero => simp [toLE, fromLE, Nat.mod_one]
  | succ w ih =>
    simp only [toLE, fromLE, ih, Fin.ofNat]
    rw [pow_succ, Nat.mul_comm (256 ^ w) 256, Nat.mod_mul]

theorem toLE_length (w n : Nat) : (toLE w n).length = w := by
  induction w generalizing n with
  | zero => rfl
  | succ w ih => simp [toLE, ih]

theorem sizeBytes_length (o : ByteOrder) (n : Nat) : (sizeBytes o n).length = 8 := by
  cases o <;> simp [sizeBytes, toLE_length, sizeof_size_t]

theorem sizeOfBytes_sizeBytes (o : ByteOrder) (n : Nat) (h : n < 2 ^ 64) :
    sizeOfBytes o (sizeBytes o n) = n := by
  have h8 : fromLE (toLE 8 n) = n := by
    rw [fromLE_toLE]
    exact Nat.mod_eq_of_lt (by norm_num at h ⊢; exact h)
  cases o <;> simp [sizeBytes, sizeOfBytes, sizeof_size_t, h8]

theorem Mem.bytes_length (m : Mem) (off len : Nat) : (m.bytes off len).length = len := by
  simp [Mem.bytes]

theorem Mem.bytes_store_same (m : Mem) (off : Nat) (src : List Byte) :
    (m.store off src).bytes off src.length = src := by
  apply List.ext_getElem
  · simp [Mem.bytes]
  · intro i h1 h2
    simp [Mem.bytes, Mem.store, h2, List.getD_eq_getElem]

theorem Mem.bytes_store_disjoint (m : Mem) (off : Nat) (src : List Byte) (a len : Nat)
    (h : a + len ≤ off ∨ off + src.length ≤ a) :
    (m.store off src).bytes a len = m.bytes a len := by
  unfold Mem.bytes
  apply List.map_congr_left
  intro i hi
  have hi2 : i < len := List.mem_range.mp hi
  have : ¬ (off ≤ a + i ∧ a + i < off + src.length) := by omega
  simp [Mem.store, this]

theorem Mem.bytes_add (m : Mem) (off a b : Nat) :
    m.bytes off (a + b) = m.bytes off a ++ m.bytes (off + a) b := by
  simp [Mem.bytes, List.range_add, List.map_append, List.map_map, Function.comp_def, Nat.add_assoc]

theorem Access.ok_bind {α β : Type} (a : α) (f : α → Access β) :
    (Access.ok a >>= f) = f a := rfl

theorem Access.fault_bind {α β : Type} (off len : Nat) (f : α → Access β) :
    ((Access.fault off len : Access α) >>= f) = Access.fault off len := rfl

theorem Access.pure_eq {α : Type} (a : α) : (pure a : Access α) = Access.ok a := rfl

theorem memcpy_from_ok (cap : Nat) (m : Mem) (off len : Nat) (h : off + len ≤ cap) :
    memcpy_from cap m off len = .ok (m.bytes off len) := by
  simp [memcpy_from, h]

theorem memcpy_to_ok (cap : Nat) (m : Mem) (off : Nat) (src : List Byte)
    (h : off + src.length ≤ cap) :
    memcpy_to cap m off src = .ok (m.store off src) := by
  simp [memcpy_to, h]

/-! ## The shared segment: writer and reader -/

/-- C1, the run the claim names: on a fresh zero-filled segment the writer of
`shared_memory_server.cpp` stores `"name"` / `"John Doe"`, and the reader of
`shared_memory_client.cpp` then retrieves the key `"name"` but eight zero
bytes as the value, not `"John Doe"` (the writer copies the value eight bytes
past the place the reader takes it from).  Both byte orders. -/
theorem shared_segment_round_trip_fails :
    ((SharedMemoryServer.main .little zeroMem).bind
        (fun w => SharedMemoryClient.main .little w.1)
      = .ok (SharedMemoryServer.key, [0, 0, 0, 0, 0, 0, 0, 0])) ∧
    ((SharedMemoryServer.main .big zeroMem).bind
        (fun w => SharedMemoryClient.main .big w.1)
      = .ok (SharedMemoryServer.key, [0, 0, 0, 0, 0, 0, 0, 0])) ∧
    ([0, 0, 0, 0, 0, 0, 0, 0] : List Byte) ≠ SharedMemoryServer.value := by
  decide

/-- C6 as stated is false: in a region whose key length field declares
1048569 bytes (one more than remain after the field), the reader does not stop
with a truncated-frame error; it copies `[8, 8 + 1048569)`, which runs past the
capacity 1048576.  Both byte orders. -/
theorem reader_copies_past_capacity :
    SharedMemoryClient.SHM_SIZE - 8 < sizeOfBytes .little ((overlongKeyRegion .little).bytes 0 8) ∧
    SharedMemoryClient.main .little (overlongKeyRegion .little) = .fault 8 1048569 ∧
    SharedMemoryClient.main .big (overlongKeyRegion .big) = .fault 8 1048569 ∧
    SharedMemoryClient.SHM_SIZE < 8 + 1048569 := by
  decide

/-- C6 amended: the reader makes no truncation check.  For every content of
the mapping in which the declared key length and the declared value length
both fit in the 1 MiB region, every copy the reader makes lies below the
capacity and it retrieves exactly the bytes after the two length fields. -/
theorem reader_decodes_when_lengths_fit (o : ByteOrder) (shm : Mem)
    (hk : 8 + sizeOfBytes o (shm.bytes 0 8) + 8 ≤ SharedMemoryClient.SHM_SIZE)
    (hv : 8 + sizeOfBytes o (shm.bytes 0 8) + 8
        + sizeOfBytes o (shm.bytes (8 + sizeOfBytes o (shm.bytes 0 8)) 8)
        ≤ SharedMemoryClient.SHM_SIZE) :
    SharedMemoryClient.main o shm =
      .ok (shm.bytes 8 (sizeOfBytes o (shm.bytes 0 8)),
           shm.bytes (8 + sizeOfBytes o (shm.bytes 0 8) + 8)
             (sizeOfBytes o (shm.bytes (8 + sizeOfBytes o (shm.bytes 0 8)) 8))) := by
  unfold SharedMemoryClient.main
  simp only [sizeof_size_t, Nat.zero_add]
  rw [memcpy_from_ok _ _ 0 8 (by omega)]
  simp only [Access.ok_bind]
  rw [memcpy_from_ok _ _ 8 _ (by omega)]
  simp only [Access.ok_bind]
  rw [memcpy_from_ok _ _ _ 8 (by omega)]
  simp only [Access.ok_bind]
  rw [memcpy_from_ok _ _ _ _ (by omega)]
  simp only [Access.ok_bind, Access.pure_eq]

/-- A region holding the well-formed frame of `"name"` / `"John Doe"`: both
declared lengths fit, and the reader retrieves exactly that key and value. -/
theorem reader_decodes_when_lengths_fit_witness :
    (8 + sizeOfBytes .little ((framedRegion .little).bytes 0 8) + 8
        ≤ SharedMemoryClient.SHM_SIZE ∧
      8 + sizeOfBytes .little ((framedRegion .little).bytes 0 8) + 8
        + sizeOfBytes .little ((framedRegion .little).bytes
            (8 + sizeOfBytes .little ((framedRegion .little).bytes 0 8)) 8)
        ≤ SharedMemoryClient.SHM_SIZE) ∧
    SharedMemoryClient.main .little (framedRegion .little) =
      .ok (SharedMemoryServer.key, SharedMemoryServer.value) :=
  ⟨by decide,
    reader_decodes_when_lengths_fit .little (framedRegion .little) (by decide) (by decide)⟩

/-! ## The benchmark: `setup_shared_memory` -/

theorem payload10240KB_length : payload10240KB.length = 10485760 := by
  rw [payload10240KB, List.length_replicate]

theorem setup_shared_memory_failed (o : ByteOrder) (os : BenchmarkServer.ShmOs) (shm : Mem)
    (data : List Byte) (h : os.shm_open < 0 ∨ os.ftruncate = -1 ∨ os.map_failed = true) :
    BenchmarkServer.setup_shared_memory o os shm data = (shm, .ok (-1)) := by
  unfold BenchmarkServer.setup_shared_memory
  by_cases h1 : os.shm_open < 0
  · simp [h1]
  · by_cases h2 : os.ftruncate = -1
    · simp [h1, h2]
    · have h3 : os.map_failed = true := by tauto
      simp [h1, h2, h3]

theorem setup_shared_memory_fits (o : ByteOrder) (os : BenchmarkServer.ShmOs) (shm : Mem)
    (data : List Byte) (h1 : 0 ≤ os.shm_open) (h2 : os.ftruncate ≠ -1)
    (h3 : os.map_failed = false) (hfit : 8 + data.length ≤ BenchmarkServer.SHM_SIZE) :
    BenchmarkServer.setup_shared_memory o os shm data
      = ((shm.store 0 (sizeBytes o data.length)).store 8 data, .ok os.shm_open) := by
  unfold BenchmarkServer.setup_shared_memory
  have h1n : ¬ os.shm_open < 0 := by omega
  have ha : 0 + (sizeBytes o data.length).length ≤ BenchmarkServer.SHM_SIZE := by
    rw [sizeBytes_length]; omega
  simp only [h1n, h2, h3, if_false, List.take_length, sizeof_size_t, memcpy_to, ha, hfit, if_true]
  simp

theorem setup_shared_memory_oversized (o : ByteOrder) (os : BenchmarkServer.ShmOs) (shm : Mem)
    (data : List Byte) (h1 : 0 ≤ os.shm_open) (h2 : os.ftruncate ≠ -1)
    (h3 : os.map_failed = false) (hbig : BenchmarkServer.SHM_SIZE < 8 + data.length) :
    BenchmarkServer.setup_shared_memory o os shm data
      = (shm.store 0 (sizeBytes o data.length), .fault 8 data.length) := by
  unfold BenchmarkServer.setup_shared_memory
  have h1n : ¬ os.shm_open < 0 := by omega
  have ha : 0 + (sizeBytes o data.length).length ≤ BenchmarkServer.SHM_SIZE := by
    rw [sizeBytes_length]; decide
  have hb : ¬ 8 + data.length ≤ BenchmarkServer.SHM_SIZE := by omega
  simp only [h1n, h2, h3, if_false, List.take_length, sizeof_size_t, memcpy_to, ha, hb, if_true]
  simp

/-- C5 as stated is false: for a payload of 10240 KB, whose frame exceeds
`SHM_SIZE` by 8 bytes, `setup_shared_memory` (its three system calls
succeeding) does not return `-1`.  It writes the 8-byte length at offset 0 of
the region and then copies the payload to `[8, 8 + 10485760)`, which runs past
the capacity 10485760.  Both byte orders. -/
theorem setup_shared_memory_copies_oversized_payload :
    BenchmarkServer.SHM_SIZE < 8 + payload10240KB.length ∧
    ((BenchmarkServer.setup_shared_memory .little shmOsOk zeroMem payload10240KB).2
        = .fault 8 10485760 ∧
      (BenchmarkServer.setup_shared_memory .little shmOsOk zeroMem payload10240KB).2
        ≠ .ok (-1) ∧
      (BenchmarkServer.setup_shared_memory .little shmOsOk zeroMem payload10240KB).1.bytes 0 8
        = [0, 0, 160, 0, 0, 0, 0, 0]) ∧
    ((BenchmarkServer.setup_shared_memory .big shmOsOk zeroMem payload10240KB).2
        = .fault 8 10485760 ∧
      (BenchmarkServer.setup_shared_memory .big shmOsOk zeroMem payload10240KB).2
        ≠ .ok (-1) ∧
      (BenchmarkServer.setup_shared_memory .big shmOsOk zeroMem payload10240KB).1.bytes 0 8
        = [0, 0, 0, 0, 0, 160, 0, 0]) ∧
    zeroMem.bytes 0 8 = [0, 0, 0, 0, 0, 0, 0, 0] ∧
    BenchmarkServer.SHM_SIZE < 8 + 10485760 := by
  have hbig : BenchmarkServer.SHM_SIZE < 8 + payload10240KB.length := by
    rw [payload10240KB_length]; decide
  rw [setup_shared_memory_oversized .little shmOsOk zeroMem payload10240KB
    (by decide) (by decide) rfl hbig,
    setup_shared_memory_oversized .big shmOsOk zeroMem payload10240KB
    (by decide) (by decide) rfl hbig, payload10240KB_length]
  exact ⟨by decide, ⟨rfl, by decide, by decide⟩, ⟨rfl, by decide, by decide⟩, by decide,
    by decide⟩

theorem Mem.store_outside (m : Mem) (off : Nat) (src : List Byte) (i : Nat)
    (h : i < off ∨ off + src.length ≤ i) : (m.store off src) i = m i := by
  have : ¬ (off ≤ i ∧ i < off + src.length) := by omega
  simp [Mem.store, this]

theorem Mem.bytes_frame (o : ByteOrder) (m : Mem) (data : List Byte) :
    ((m.store 0 (sizeBytes o data.length)).store 8 data).bytes 0 (8 + data.length)
      = sizeBytes o data.length ++ data := by
  rw [Mem.bytes_add, Nat.zero_add, Mem.bytes_store_same]
  rw [Mem.bytes_store_disjoint _ 8 data 0 8 (by omega)]
  have h := Mem.bytes_store_same m 0 (sizeBytes o data.length)
  rw [sizeBytes_length] at h
  rw [h]

/-- C5 amended: `setup_shared_memory` makes no capacity check.  For every
payload whose frame (8 + payload length bytes) does not exceed `SHM_SIZE`: it
returns `-1` exactly when `shm_open`, `ftruncate` or `mmap` fails, and then
leaves the region as it was; otherwise it returns the descriptor, the first
`8 + n` bytes of the region are the length followed by the payload, and no
offset at or beyond the capacity is changed. -/
theorem setup_shared_memory_within_capacity (o : ByteOrder) (os : BenchmarkServer.ShmOs)
    (shm : Mem) (data : List Byte) (hfit : 8 + data.length ≤ BenchmarkServer.SHM_SIZE) :
    ((BenchmarkServer.setup_shared_memory o os shm data).2 = .ok (-1)
        ↔ (os.shm_open < 0 ∨ os.ftruncate = -1 ∨ os.map_failed = true)) ∧
    ((os.shm_open < 0 ∨ os.ftruncate = -1 ∨ os.map_failed = true) →
        (BenchmarkServer.setup_shared_memory o os shm data).1 = shm) ∧
    (¬ (os.shm_open < 0 ∨ os.ftruncate = -1 ∨ os.map_failed = true) →
        (BenchmarkServer.setup_shared_memory o os shm data).2 = .ok os.shm_open ∧
        (BenchmarkServer.setup_shared_memory o os shm data).1.bytes 0 (8 + data.length)
          = sizeBytes o data.length ++ data ∧
        ∀ i, BenchmarkServer.SHM_SIZE ≤ i →
          (BenchmarkServer.setup_shared_memory o os shm data).1 i = shm i) := by
  by_cases hf : os.shm_open < 0 ∨ os.ftruncate = -1 ∨ os.map_failed = true
  · rw [setup_shared_memory_failed o os shm data hf]
    exact ⟨⟨fun _ => hf, fun _ => rfl⟩, fun _ => rfl, fun h => absurd hf h⟩
  · have h1 : 0 ≤ os.shm_open := by
      by_contra h; exact hf (Or.inl (by omega))
    have h2 : os.ftruncate ≠ -1 := fun h => hf (Or.inr (Or.inl h))
    have h3 : os.map_failed = false := by
      cases h : os.map_failed
      · rfl
      · exact absurd (Or.inr (Or.inr h)) hf
    rw [setup_shared_memory_fits o os shm data h1 h2 h3 hfit]
    refine ⟨⟨fun h => ?_, fun h => absurd h hf⟩, fun h => absurd h hf, fun _ => ⟨rfl, ?_, ?_⟩⟩
    · exfalso
      have h' : os.shm_open = -1 := by
        simpa using h
      omega
    · exact Mem.bytes_frame o shm data
    · intro i hi
      show ((shm.store 0 (sizeBytes o data.length)).store 8 data) i = shm i
      rw [Mem.store_outside _ 8 data i (by omega)]
      rw [Mem.store_outside _ 0 _ i (by rw [sizeBytes_length]; omega)]

/-- A three-byte payload fits; with all system calls succeeding
`setup_shared_memory` returns the descriptor 3 and the region starts with the
frame. -/
theorem setup_shared_memory_within_capacity_witness :
    8 + payload3.length ≤ BenchmarkServer.SHM_SIZE ∧
    (BenchmarkServer.setup_shared_memory .little shmOsOk zeroMem payload3).2 = .ok 3 ∧
    (BenchmarkServer.setup_shared_memory .little shmOsOk zeroMem payload3).1.bytes 0 (8 + 3)
      = [3, 0, 0, 0, 0, 0, 0, 0, 1, 2, 3] ∧
    ∀ i, BenchmarkServer.SHM_SIZE ≤ i →
      (BenchmarkServer.setup_shared_memory .little shmOsOk zeroMem payload3).1 i = zeroMem i :=
  ⟨by decide,
    (setup_shared_memory_within_capacity .little shmOsOk zeroMem payload3 (by decide)).2.2
      (by decide)⟩

/-! ## The benchmark: `send_data_over_socket` -/

theorem sendLoop_done (send : Nat → Nat → Int) (data : List Byte) (n fuel : Nat) (s : BenchmarkServer.Sending)
    (h : ¬ s.total_sent < n) : BenchmarkServer.sendLoop send data n fuel s = .returned true s := by
  unfold BenchmarkServer.sendLoop
  simp [h]

theorem sendLoop_step (send : Nat → Nat → Int) (data : List Byte) (n fuel : Nat) (s : BenchmarkServer.Sending)
    (h : s.total_sent < n) :
    BenchmarkServer.sendLoop send data n (fuel + 1) s =
      if send s.results.length (n - s.total_sent) < 0 then
        .returned false ⟨s.total_sent, s.results ++ [send s.results.length (n - s.total_sent)],
          s.chunks ++ [transmitted (send s.results.length (n - s.total_sent))
            ((data.drop s.total_sent).take (n - s.total_sent))]⟩
      else
        BenchmarkServer.sendLoop send data n fuel
          ⟨(s.total_sent + (send s.results.length (n - s.total_sent)).toNat) % 2 ^ 64,
            s.results ++ [send s.results.length (n - s.total_sent)],
            s.chunks ++ [transmitted (send s.results.length (n - s.total_sent))
              ((data.drop s.total_sent).take (n - s.total_sent))]⟩ := by
  rw [BenchmarkServer.sendLoop]
  simp [h]

theorem handedOver_append_le (rs : List Int) (x : Int) (k : Nat) (h : k ≤ rs.length) :
    BenchmarkServer.handedOver (rs ++ [x]) k = BenchmarkServer.handedOver rs k := by
  simp [BenchmarkServer.handedOver, List.take_append_of_le_length h]

theorem handedOver_append_all (rs : List Int) (x : Int) :
    BenchmarkServer.handedOver (rs ++ [x]) (rs ++ [x]).length = BenchmarkServer.handedOver rs rs.length + x.toNat := by
  simp [BenchmarkServer.handedOver]

theorem loop_record_snoc (send : Nat → Nat → Int) (data : List Byte) (rs : List Int)
    (cs : List (List Byte)) (x : Int) (c : List Byte)
    (hlen : cs.length = rs.length)
    (htie : ∀ k, k < rs.length →
      BenchmarkServer.handedOver rs k < data.length ∧
      rs.getD k 0 = send (k + 1) (data.length - BenchmarkServer.handedOver rs k) ∧
      cs.getD k [] = transmitted (rs.getD k 0)
        ((data.drop (BenchmarkServer.handedOver rs k)).take (data.length - BenchmarkServer.handedOver rs k)) ∧
      (k + 1 < rs.length → 0 ≤ rs.getD k 0))
    (hnn : ∀ k, k < rs.length → 0 ≤ rs.getD k 0)
    (hoff : BenchmarkServer.handedOver rs rs.length < data.length)
    (hx : x = send (rs.length + 1) (data.length - BenchmarkServer.handedOver rs rs.length))
    (hc : c = transmitted x
      ((data.drop (BenchmarkServer.handedOver rs rs.length)).take (data.length - BenchmarkServer.handedOver rs rs.length))) :
    ∀ k, k < (rs ++ [x]).length →
      BenchmarkServer.handedOver (rs ++ [x]) k < data.length ∧
      (rs ++ [x]).getD k 0 = send (k + 1) (data.length - BenchmarkServer.handedOver (rs ++ [x]) k) ∧
      (cs ++ [c]).getD k [] = transmitted ((rs ++ [x]).getD k 0)
        ((data.drop (BenchmarkServer.handedOver (rs ++ [x]) k)).take
          (data.length - BenchmarkServer.handedOver (rs ++ [x]) k)) ∧
      (k + 1 < (rs ++ [x]).length → 0 ≤ (rs ++ [x]).getD k 0) := by
  intro k hk
  have hk1 : k ≤ rs.length := by
    simp at hk; omega
  rw [handedOver_append_le rs x k hk1]
  by_cases hlt : k < rs.length
  · obtain ⟨h1, h2, h3, _⟩ := htie k hlt
    rw [List.getD_append rs [x] 0 k hlt, List.getD_append cs [c] [] k (by omega)]
    exact ⟨h1, h2, h3, fun _ => hnn k hlt⟩
  · have hke : k = rs.length := by omega
    subst hke
    have e1 : (rs ++ [x]).getD rs.length 0 = x := by
      rw [List.getD_append_right rs [x] 0 rs.length (le_refl _)]
      simp
    have e2 : (cs ++ [c]).getD rs.length [] = c := by
      rw [List.getD_append_right cs [c] [] rs.length (by omega), hlen]
      simp
    rw [e1, e2]
    refine ⟨hoff, hx, hc, fun h => ?_⟩
    simp at h

theorem loop_nonneg_snoc (rs : List Int) (x : Int) (hnn : ∀ k, k < rs.length → 0 ≤ rs.getD k 0)
    (hx : 0 ≤ x) : ∀ k, k < (rs ++ [x]).length → 0 ≤ (rs ++ [x]).getD k 0 := by
  intro k hk
  have hk1 : k ≤ rs.length := by
    simp at hk; omega
  by_cases hlt : k < rs.length
  · rw [List.getD_append rs [x] 0 k hlt]
    exact hnn k hlt
  · have hke : k = rs.length := by omega
    subst hke
    rw [List.getD_append_right rs [x] 0 rs.length (le_refl _)]
    simpa using hx

/-- Every observation of the loop, started in a state that is a faithful record
of the calls made so far, is again such a record. -/
theorem sendLoop_record (send : Nat → Nat → Int) (data : List Byte)
    (hn : data.length < 2 ^ 64)
    (hvalid : ∀ i len, 1 ≤ i → 0 < len → send i len < 0 ∨ (1 ≤ send i len ∧ send i len ≤ len))
    (r0 : Int) (c0 : List Byte) :
    ∀ (fuel t : Nat) (rs : List Int) (cs : List (List Byte)),
      cs.length = rs.length → t = BenchmarkServer.handedOver rs rs.length → t ≤ data.length →
      rs.length ≤ t → cs.flatten = data.take t →
      (∀ k, k < rs.length →
        BenchmarkServer.handedOver rs k < data.length ∧
        rs.getD k 0 = send (k + 1) (data.length - BenchmarkServer.handedOver rs k) ∧
        cs.getD k [] = transmitted (rs.getD k 0)
          ((data.drop (BenchmarkServer.handedOver rs k)).take (data.length - BenchmarkServer.handedOver rs k)) ∧
        (k + 1 < rs.length → 0 ≤ rs.getD k 0)) →
      (∀ k, k < rs.length → 0 ≤ rs.getD k 0) →
      ∃ t1 rs1 cs1,
        (BenchmarkServer.sendLoop send data data.length fuel ⟨t, r0 :: rs, c0 :: cs⟩).state
          = ⟨t1, r0 :: rs1, c0 :: cs1⟩ ∧
        t1 ≤ data.length ∧ t1 = BenchmarkServer.handedOver rs1 rs1.length ∧
        cs1.length = rs1.length ∧ rs1.length ≤ data.length ∧ rs1.length ≤ rs.length + fuel ∧
        cs1.flatten = data.take t1 ∧
        (∀ k, k < rs1.length →
          BenchmarkServer.handedOver rs1 k < data.length ∧
          rs1.getD k 0 = send (k + 1) (data.length - BenchmarkServer.handedOver rs1 k) ∧
          cs1.getD k [] = transmitted (rs1.getD k 0)
            ((data.drop (BenchmarkServer.handedOver rs1 k)).take (data.length - BenchmarkServer.handedOver rs1 k)) ∧
          (k + 1 < rs1.length → 0 ≤ rs1.getD k 0)) ∧
        (∀ b s, BenchmarkServer.sendLoop send data data.length fuel ⟨t, r0 :: rs, c0 :: cs⟩
            = .returned b s →
          (b = false ↔ ∃ k, k < rs1.length ∧ rs1.getD k 0 < 0) ∧ (b = true → t1 = data.length)) ∧
        (data.length - t ≤ fuel →
          ∃ b s, BenchmarkServer.sendLoop send data data.length fuel ⟨t, r0 :: rs, c0 :: cs⟩
            = .returned b s) := by
  intro fuel
  induction fuel with
  | zero =>
    intro t rs cs hlen ht htn hrt hfl htie hnn
    by_cases h : t < data.length
    · have hrun : BenchmarkServer.sendLoop send data data.length 0 ⟨t, r0 :: rs, c0 :: cs⟩
          = .running ⟨t, r0 :: rs, c0 :: cs⟩ := by
        unfold BenchmarkServer.sendLoop
        simp [h]
      rw [hrun]
      refine ⟨t, rs, cs, rfl, htn, ht, hlen, by omega, by omega, hfl, htie, ?_, ?_⟩
      · intro b s hbs
        cases hbs
      · intro hf
        omega
    · rw [sendLoop_done send data _ 0 _ h]
      refine ⟨t, rs, cs, rfl, htn, ht, hlen, by omega, by omega, hfl, htie, ?_, ?_⟩
      · intro b s hbs
        injection hbs with hb _
        subst hb
        refine ⟨⟨fun hc => Bool.noConfusion hc, ?_⟩, fun _ => by omega⟩
        rintro ⟨k, hk, hneg⟩
        exact absurd hneg (by have := hnn k hk; omega)
      · intro _
        exact ⟨true, _, rfl⟩
  | succ fuel ih =>
    intro t rs cs hlen ht htn hrt hfl htie hnn
    by_cases h : t < data.length
    · rw [sendLoop_step send data _ fuel _ h]
      simp only [List.length_cons]
      generalize hsent : send (rs.length + 1) (data.length - t) = sent
      have hx : sent = send (rs.length + 1) (data.length - BenchmarkServer.handedOver rs rs.length) := by
        rw [← ht, hsent]
      have hoff : BenchmarkServer.handedOver rs rs.length < data.length := by
        rw [← ht]; exact h
      have htie1 := loop_record_snoc send data rs cs sent
        (transmitted sent ((data.drop t).take (data.length - t))) hlen htie hnn hoff hx
        (by rw [← ht])
      have hlen1 : (cs ++ [transmitted sent ((data.drop t).take (data.length - t))]).length
          = (rs ++ [sent]).length := by
        simp [hlen]
      rcases hvalid (rs.length + 1) (data.length - t) (by omega) (by omega) with hneg | ⟨h1, h2⟩
      · rw [hsent] at hneg
        rw [if_pos hneg]
        have htr : transmitted sent ((data.drop t).take (data.length - t)) = [] := by
          rw [transmitted, if_pos hneg]
        have hz : sent.toNat = 0 := by omega
        refine ⟨t, rs ++ [sent], cs ++ [transmitted sent ((data.drop t).take (data.length - t))],
          by simp [BenchmarkServer.Run.state], htn, ?_, hlen1, ?_, ?_, ?_, htie1, ?_, ?_⟩
        · rw [handedOver_append_all, hz, ← ht]; rfl
        · simp; omega
        · simp
        · rw [List.flatten_append, hfl, htr]
          simp
        · intro b s hbs
          injection hbs with hb _
          subst hb
          refine ⟨⟨fun _ => ⟨rs.length, by simp, ?_⟩, fun _ => rfl⟩, fun hc => Bool.noConfusion hc⟩
          rw [List.getD_append_right rs [sent] 0 rs.length (le_refl _)]
          simpa using hneg
        · intro _
          exact ⟨false, _, rfl⟩
      · rw [hsent] at h1 h2
        have hnn0 : ¬ sent < 0 := by omega
        rw [if_neg hnn0]
        have hk : t + sent.toNat ≤ data.length := by omega
        have hmod : (t + sent.toNat) % 2 ^ 64 = t + sent.toNat :=
          Nat.mod_eq_of_lt (by omega)
        rw [hmod]
        have hcons1 : r0 :: rs ++ [sent] = r0 :: (rs ++ [sent]) := rfl
        have hcons2 : c0 :: cs ++ [transmitted sent ((data.drop t).take (data.length - t))]
            = c0 :: (cs ++ [transmitted sent ((data.drop t).take (data.length - t))]) := rfl
        rw [hcons1, hcons2]
        obtain ⟨t1, rs1, cs1, hst, p1, p2, p3, p4, p5, p6, p7, p8, p9⟩ :=
          ih (t + sent.toNat) (rs ++ [sent])
            (cs ++ [transmitted sent ((data.drop t).take (data.length - t))]) hlen1
            (by rw [handedOver_append_all, ← ht])
            hk (by simp; omega)
            (by
              rw [List.flatten_append, hfl, transmitted, if_neg hnn0, List.take_take,
                Nat.min_eq_left (by omega), List.take_add]
              simp)
            htie1 (loop_nonneg_snoc rs sent hnn (by omega))
        refine ⟨t1, rs1, cs1, hst, p1, p2, p3, p4, ?_, p6, p7, p8, ?_⟩
        · have : (rs ++ [sent]).length = rs.length + 1 := by simp
          omega
        · intro hf
          exact p9 (by omega)
    · rw [sendLoop_done send data _ _ _ h]
      refine ⟨t, rs, cs, rfl, htn, ht, hlen, by omega, by omega, hfl, htie, ?_, ?_⟩
      · intro b s hbs
        injection hbs with hb _
        subst hb
        refine ⟨⟨fun hc => Bool.noConfusion hc, ?_⟩, fun _ => by omega⟩
        rintro ⟨k, hk, hneg⟩
        exact absurd hneg (by have := hnn k hk; omega)
      · intro _
        exact ⟨true, _, rfl⟩

/-- C4, a run the claim covers: the first `send` (asked for the 8 length
bytes) transmits 4, the second transmits the one-byte payload `[7]`.
`send_data_over_socket` returns `true` although the connection carries only
5 bytes, not the 8-byte length followed by the payload: unlike the payload,
the length is sent by a single `send` whose count is never examined.  Both
byte orders. -/
theorem send_data_over_socket_short_length :
    (1 ≤ sendHalfLength 0 8 ∧ sendHalfLength 0 8 ≤ 8) ∧
    (1 ≤ sendHalfLength 1 1 ∧ sendHalfLength 1 1 ≤ 1) ∧
    BenchmarkServer.send_data_over_socket .little sendHalfLength 1 [7]
      = .returned true ⟨1, [4, 1], [[1, 0, 0, 0], [7]]⟩ ∧
    BenchmarkServer.send_data_over_socket .big sendHalfLength 1 [7]
      = .returned true ⟨1, [4, 1], [[0, 0, 0, 0], [7]]⟩ ∧
    (⟨1, [4, 1], [[1, 0, 0, 0], [7]]⟩ : BenchmarkServer.Sending).wire
      ≠ sizeBytes .little 1 ++ [7] ∧
    (⟨1, [4, 1], [[0, 0, 0, 0], [7]]⟩ : BenchmarkServer.Sending).wire
      ≠ sizeBytes .big 1 ++ [7] := by
  decide

/-- C10: the payload loop of `send_data_over_socket`.  Assume the `send` of
the length did not fail and every later `send` asked for `len > 0` bytes
returns a negative value or a count from 1 to `len`.  Then for a payload of
`n` bytes the function returns when its loop is followed for `n` iterations.
However long the loop is followed, with `rs` the results of the loop's `send`
calls so far and `cs` the chunks they put on the connection (call `k + 1` is
the loop's `k`-th, call 0 sent the length): there are at most `n` of them;
`total_sent` is the number of bytes they handed over and is at most `n`; the
chunks make up the first `total_sent` bytes of the payload; the `k`-th call was
made with bytes remaining, asked for exactly the remaining count, `rs[k]` is
what `send` answered and `cs[k]` the bytes it took from the payload at that
offset; and every call but the last returned a count.  When the function has
returned, the result is `false` exactly when one of these `send` calls
answered a negative value, and when it is `true`, `total_sent = n` and the
chunks make up the payload. -/
theorem send_data_over_socket_payload_loop (o : ByteOrder) (send : Nat → Nat → Int)
    (data : List Byte) (hn : data.length < 2 ^ 64) (h0 : 0 ≤ send 0 8)
    (hvalid : ∀ i len, 1 ≤ i → 0 < len → send i len < 0 ∨ (1 ≤ send i len ∧ send i len ≤ len)) :
    (∃ b s, BenchmarkServer.send_data_over_socket o send data.length data = .returned b s) ∧
    ∀ fuel, ∃ t rs cs,
      (BenchmarkServer.send_data_over_socket o send fuel data).state
        = ⟨t, send 0 8 :: rs, transmitted (send 0 8) (sizeBytes o data.length) :: cs⟩ ∧
      t ≤ data.length ∧ t = BenchmarkServer.handedOver rs rs.length ∧
      cs.length = rs.length ∧ rs.length ≤ data.length ∧ rs.length ≤ fuel ∧
      cs.flatten = data.take t ∧
      (∀ k, k < rs.length →
        BenchmarkServer.handedOver rs k < data.length ∧
        rs.getD k 0 = send (k + 1) (data.length - BenchmarkServer.handedOver rs k) ∧
        cs.getD k [] = transmitted (rs.getD k 0)
          ((data.drop (BenchmarkServer.handedOver rs k)).take
            (data.length - BenchmarkServer.handedOver rs k)) ∧
        (k + 1 < rs.length → 0 ≤ rs.getD k 0)) ∧
      (∀ b s, BenchmarkServer.send_data_over_socket o send fuel data = .returned b s →
        (b = false ↔
          ∃ k, k < rs.length ∧
            send (k + 1) (data.length - BenchmarkServer.handedOver rs k) < 0) ∧
        (b = true → t = data.length ∧ cs.flatten = data)) := by
  have hnn : ¬ send 0 8 < 0 := by omega
  have hunf : ∀ fuel, BenchmarkServer.send_data_over_socket o send fuel data
      = BenchmarkServer.sendLoop send data data.length fuel
          ⟨0, send 0 8 :: [], transmitted (send 0 8) (sizeBytes o data.length) :: []⟩ := by
    intro fuel
    simp only [BenchmarkServer.send_data_over_socket, sizeof_size_t, if_neg hnn]
  have hrec := fun fuel => sendLoop_record send data hn hvalid (send 0 8)
    (transmitted (send 0 8) (sizeBytes o data.length)) fuel 0 [] [] rfl rfl (Nat.zero_le _)
    (Nat.le_refl _) rfl (fun k hk => absurd hk (Nat.not_lt_zero k))
    (fun k hk => absurd hk (Nat.not_lt_zero k))
  constructor
  · obtain ⟨_, _, _, _, _, _, _, _, _, _, _, _, hret⟩ := hrec data.length
    rw [hunf]
    exact hret (by omega)
  · intro fuel
    obtain ⟨t1, rs1, cs1, hst, p1, p2, p3, p4, p5, p6, p7, p8, _⟩ := hrec fuel
    refine ⟨t1, rs1, cs1, by rw [hunf]; exact hst, p1, p2, p3, p4, by simpa using p5, p6, p7, ?_⟩
    intro b s hbs
    rw [hunf] at hbs
    obtain ⟨q1, q2⟩ := p8 b s hbs
    refine ⟨?_, fun hb => ?_⟩
    · rw [q1]
      constructor
      · rintro ⟨k, hk, hneg⟩
        exact ⟨k, hk, by rw [← (p7 k hk).2.1]; exact hneg⟩
      · rintro ⟨k, hk, hneg⟩
        exact ⟨k, hk, by rw [(p7 k hk).2.1]; exact hneg⟩
    · have ht := q2 hb
      refine ⟨ht, ?_⟩
      rw [p6, ht, List.take_length]

/-- A three-byte payload sent one byte per `send`: the hypotheses hold, the
function returns `true` after three loop iterations with the payload on the
connection, and the general statement applies. -/
theorem send_data_over_socket_payload_loop_witness :
    (payload3.length < 2 ^ 64 ∧ 0 ≤ sendByteByByte 0 8 ∧
      ∀ i len, 1 ≤ i → 0 < len →
        sendByteByByte i len < 0 ∨ (1 ≤ sendByteByByte i len ∧ sendByteByByte i len ≤ len)) ∧
    BenchmarkServer.send_data_over_socket .little sendByteByByte payload3.length payload3
      = .returned true ⟨3, [8, 1, 1, 1], [[3, 0, 0, 0, 0, 0, 0, 0], [1], [2], [3]]⟩ ∧
    (∃ b s, BenchmarkServer.send_data_over_socket .little sendByteByByte payload3.length payload3
      = .returned b s) :=
  have hvalid : ∀ i len, 1 ≤ i → 0 < len →
      sendByteByByte i len < 0 ∨ (1 ≤ sendByteByByte i len ∧ sendByteByByte i len ≤ len) :=
    fun i len hi hlen => Or.inr (by
      have h : sendByteByByte i len = 1 := by
        unfold sendByteByByte
        rw [if_neg (by omega)]
      rw [h]
      omega)
  ⟨⟨by decide, by decide, hvalid⟩, by decide,
    (send_data_over_socket_payload_loop .little sendByteByByte payload3 (by decide) (by decide)
      hvalid).1⟩

/-- C8: both transports of the benchmark write the same frame.  For a payload
`p` of `n` bytes with `8 + n ≤ SHM_SIZE`: when `shm_open`, `ftruncate` and
`mmap` succeed, `setup_shared_memory` returns the descriptor and the first
`8 + n` bytes of the region are the 8-byte encoding of `n` followed by `p`;
when both `send` calls transmit all they are asked to, `send_data_over_socket`
returns `true` and the bytes on the connection are the same sequence. -/
theorem benchmark_transports_same_frame (o : ByteOrder) (os : BenchmarkServer.ShmOs)
    (shm : Mem) (send : Nat → Nat → Int) (fuel : Nat) (p : List Byte)
    (hfit : 8 + p.length ≤ BenchmarkServer.SHM_SIZE)
    (hopen : 0 ≤ os.shm_open) (htrunc : os.ftruncate ≠ -1) (hmap : os.map_failed = false)
    (hfuel : 0 < fuel) (h0 : send 0 8 = 8) (h1 : send 1 p.length = p.length) :
    (BenchmarkServer.setup_shared_memory o os shm p).2 = .ok os.shm_open ∧
    (BenchmarkServer.setup_shared_memory o os shm p).1.bytes 0 (8 + p.length)
      = sizeBytes o p.length ++ p ∧
    (∃ s, BenchmarkServer.send_data_over_socket o send fuel p = .returned true s ∧
      s.wire = sizeBytes o p.length ++ p) ∧
    ∀ s, BenchmarkServer.send_data_over_socket o send fuel p = .returned true s →
      s.wire = (BenchmarkServer.setup_shared_memory o os shm p).1.bytes 0 (8 + p.length) := by
  have hmem := Mem.bytes_frame o shm p
  have hsetup := setup_shared_memory_fits o os shm p hopen htrunc hmap hfit
  have hsock : ∃ s, BenchmarkServer.send_data_over_socket o send fuel p = .returned true s ∧
      s.wire = sizeBytes o p.length ++ p := by
    obtain ⟨k, rfl⟩ : ∃ k, fuel = k + 1 := ⟨fuel - 1, by omega⟩
    have hlen8 : (sizeBytes o p.length).length = 8 := sizeBytes_length o p.length
    have hpre : transmitted 8 (sizeBytes o p.length) = sizeBytes o p.length := by
      have : (8 : Int).toNat = (sizeBytes o p.length).length := by rw [hlen8]; rfl
      rw [transmitted, if_neg (by decide), this, List.take_length]
    simp only [BenchmarkServer.send_data_over_socket, sizeof_size_t, h0, hpre]
    rw [if_neg (by decide)]
    by_cases hp : 0 < p.length
    · rw [sendLoop_step send p _ k _ hp]
      simp only [List.length_singleton, Nat.sub_zero, h1, List.drop_zero, List.take_length]
      rw [if_neg (by omega)]
      have hbound : p.length < 2 ^ 64 := by
        have : BenchmarkServer.SHM_SIZE < 2 ^ 64 := by decide
        omega
      have hmod : (0 + (p.length : Int).toNat) % 2 ^ 64 = p.length := by
        rw [Nat.zero_add, Int.toNat_ofNat]
        exact Nat.mod_eq_of_lt hbound
      rw [hmod, sendLoop_done send p _ k _ (by simp)]
      refine ⟨_, rfl, ?_⟩
      simp [BenchmarkServer.Sending.wire, transmitted]
    · rw [sendLoop_done send p _ _ _ (by simpa using hp)]
      refine ⟨_, rfl, ?_⟩
      have : p = [] := List.length_eq_zero.mp (by omega)
      simp [BenchmarkServer.Sending.wire, this]
  refine ⟨by rw [hsetup], by rw [hsetup]; exact hmem, hsock, ?_⟩
  intro s hs
  obtain ⟨s1, hs1, hw⟩ := hsock
  rw [hs1] at hs
  have : s1 = s := by
    injection hs
  rw [← this, hw, hsetup]
  exact hmem.symm

/-- A three-byte payload on a little-endian host: region and connection both
carry `[3,0,0,0,0,0,0,0,1,2,3]`. -/
theorem benchmark_transports_same_frame_witness :
    (8 + payload3.length ≤ BenchmarkServer.SHM_SIZE ∧ 0 ≤ shmOsOk.shm_open ∧
      shmOsOk.ftruncate ≠ -1 ∧ shmOsOk.map_failed = false ∧ 0 < 1 ∧ sendAll 0 8 = 8 ∧
      sendAll 1 payload3.length = payload3.length) ∧
    (BenchmarkServer.setup_shared_memory .little shmOsOk zeroMem payload3).2 = .ok 3 ∧
    (BenchmarkServer.setup_shared_memory .little shmOsOk zeroMem payload3).1.bytes 0
        (8 + payload3.length) = [3, 0, 0, 0, 0, 0, 0, 0, 1, 2, 3] ∧
    (∃ s, BenchmarkServer.send_data_over_socket .little sendAll 1 payload3 = .returned true s ∧
      s.wire = [3, 0, 0, 0, 0, 0, 0, 0, 1, 2, 3]) ∧
    ∀ s, BenchmarkServer.send_data_over_socket .little sendAll 1 payload3 = .returned true s →
      s.wire = (BenchmarkServer.setup_shared_memory .little shmOsOk zeroMem payload3).1.bytes 0
        (8 + payload3.length) :=
  ⟨by decide,
    benchmark_transports_same_frame .little shmOsOk zeroMem sendAll 1 payload3
      (by decide) (by decide) (by decide) rfl (by decide) (by decide) (by decide)⟩

/-! ## The stream server and client -/

theorem transmitted_all (r : Int) (buf : List Byte) (h : (buf.length : Int) ≤ r) :
    transmitted r buf = buf := by
  have h1 : ¬ r < 0 := by omega
  have h2 : buf.length ≤ r.toNat := by omega
  rw [transmitted, if_neg h1, List.take_of_length_le h2]

theorem received_all (r : Int) (len : Nat) (buf a rest : List Byte)
    (ha : a.length = len) (hb : buf.length = len) (hr : (len : Int) ≤ r) :
    received r len buf (a ++ rest) = (a, rest) := by
  have h2 : a.length ≤ r.toNat := by omega
  have h3 : List.take len (a ++ rest) = a := by
    rw [← ha]; exact List.take_left' rfl
  simp only [received, h3, List.take_of_length_le h2]
  rw [List.drop_of_length_le (by omega), List.append_nil, List.drop_left' rfl]

theorem received_some (r : Int) (len : Nat) (buf a : List Byte)
    (ha : a.length = len) :
    received r len buf a = (a.take r.toNat ++ buf.drop (a.take r.toNat).length,
      a.drop (a.take r.toNat).length) := by
  have h3 : List.take len a = a := by
    rw [← ha]; exact List.take_length a
  simp only [received, h3]

theorem not_mem_unlink (names : List String) (path : String) : path ∉ unlink names path := by
  simp [unlink]

theorem bind_after_unlink (names : List String) (path : String) :
    bind false (unlink names path) path = (0, path :: unlink names path) := by
  have h : (unlink names path).contains path = false := by
    simpa using not_mem_unlink names path
  simp only [bind, h]
  rfl

theorem server_reaches_sends (o : ByteOrder) (os : UnixDomainSocketServer.Os)
    (names : List String) (k v : List Byte)
    (hsock : 0 ≤ os.socket) (hbind : os.bind_refused = false)
    (hlisten : 0 ≤ os.listen) (haccept : 0 ≤ os.accept)
    (hpipe : ∀ i, i < 4 → os.sigpipe i = false) :
    UnixDomainSocketServer.mainWith o os names k v =
      ⟨some 0, transmitted (os.send 0 8) (sizeBytes o k.length) ++ transmitted (os.send 1 k.length) k
          ++ transmitted (os.send 2 8) (sizeBytes o v.length)
          ++ transmitted (os.send 3 v.length) v,
        unlink (UnixDomainSocketServer.SOCKET_PATH ::
          unlink names UnixDomainSocketServer.SOCKET_PATH) UnixDomainSocketServer.SOCKET_PATH,
        true⟩ := by
  have h1 : ¬ os.socket < 0 := by omega
  have h2 : ¬ os.listen < 0 := by omega
  have h3 : ¬ os.accept < 0 := by omega
  simp [UnixDomainSocketServer.mainWith, h1, h2, h3, hbind, bind_after_unlink, sizeof_size_t,
    hpipe 0 (by decide), hpipe 1 (by decide), hpipe 2 (by decide), hpipe 3 (by decide)]

theorem client_reads_frame (o : ByteOrder) (os : UnixDomainSocketClient.Os) (k v : List Byte)
    (hk : k.length < 2 ^ 64) (hv : v.length < 2 ^ 64)
    (hcs : 0 ≤ os.socket) (hcc : 0 ≤ os.connect)
    (hr0 : os.recv 0 8 = 8) (hr1 : os.recv 1 k.length = k.length) (hr2 : os.recv 2 8 = 8)
    (r : Int) (hr3 : os.recv 3 v.length = r) (hr : 0 ≤ r) :
    UnixDomainSocketClient.main o os (sizeBytes o k.length ++ k ++ sizeBytes o v.length ++ v)
      = ⟨0, some (k, v.take r.toNat ++ (List.replicate v.length 0).drop (v.take r.toNat).length)⟩ := by
  have h1 : ¬ os.socket < 0 := by omega
  have h2 : ¬ os.connect < 0 := by omega
  have e0 : received 8 8 (sizeBytes o os.key_len)
      (sizeBytes o k.length ++ (k ++ (sizeBytes o v.length ++ v)))
      = (sizeBytes o k.length, k ++ (sizeBytes o v.length ++ v)) :=
    received_all 8 8 _ _ _ (sizeBytes_length _ _) (sizeBytes_length _ _) (by decide)
  have e1 : received k.length k.length (List.replicate k.length 0)
      (k ++ (sizeBytes o v.length ++ v)) = (k, sizeBytes o v.length ++ v) :=
    received_all _ _ _ _ _ rfl (by simp) (le_refl _)
  have e2 : received 8 8 (sizeBytes o os.value_len) (sizeBytes o v.length ++ v)
      = (sizeBytes o v.length, v) :=
    received_all 8 8 _ _ _ (sizeBytes_length _ _) (sizeBytes_length _ _) (by decide)
  have h3 : ¬ r < 0 := by omega
  simp only [UnixDomainSocketClient.main, if_neg h1, if_neg h2, sizeof_size_t, hr0,
    List.append_assoc, e0, sizeOfBytes_sizeBytes o k.length hk, hr1, e1, hr2, e2,
    sizeOfBytes_sizeBytes o v.length hv, hr3, if_neg h3,
    received_some r v.length _ v rfl]
  simp

/-- C2: stream round trip.  For every key `k` and value `v` (of lengths a
`size_t` can hold): when the server gets as far as its four `send` calls and
each of them returns having transmitted its whole buffer, the bytes on the
connection are the 8-byte length of `k`, `k`, the 8-byte length of `v` and
`v`; and when each of the client's four `recv` calls delivers the count
requested, the client retrieves exactly `(k, v)` from that stream and
returns 0. -/
theorem stream_round_trip (o : ByteOrder) (sos : UnixDomainSocketServer.Os)
    (cos : UnixDomainSocketClient.Os) (names : List String) (k v : List Byte)
    (hk : k.length < 2 ^ 64) (hv : v.length < 2 ^ 64)
    (hsock : 0 ≤ sos.socket) (hbind : sos.bind_refused = false)
    (hlisten : 0 ≤ sos.listen) (haccept : 0 ≤ sos.accept)
    (hs0 : sos.send 0 8 = 8) (hs1 : sos.send 1 k.length = k.length)
    (hs2 : sos.send 2 8 = 8) (hs3 : sos.send 3 v.length = v.length)
    (hpipe : ∀ i, i < 4 → sos.sigpipe i = false)
    (hcs : 0 ≤ cos.socket) (hcc : 0 ≤ cos.connect)
    (hr0 : cos.recv 0 8 = 8) (hr1 : cos.recv 1 k.length = k.length)
    (hr2 : cos.recv 2 8 = 8) (hr3 : cos.recv 3 v.length = v.length) :
    (UnixDomainSocketServer.mainWith o sos names k v).wire
      = sizeBytes o k.length ++ k ++ sizeBytes o v.length ++ v ∧
    UnixDomainSocketClient.main o cos (UnixDomainSocketServer.mainWith o sos names k v).wire
      = ⟨0, some (k, v)⟩ := by
  have hw : (UnixDomainSocketServer.mainWith o sos names k v).wire
      = sizeBytes o k.length ++ k ++ sizeBytes o v.length ++ v := by
    rw [server_reaches_sends o sos names k v hsock hbind hlisten haccept hpipe]
    simp only [hs0, hs1, hs2, hs3]
    rw [transmitted_all 8 (sizeBytes o k.length) (by rw [sizeBytes_length]; decide),
      transmitted_all 8 (sizeBytes o v.length) (by rw [sizeBytes_length]; decide),
      transmitted_all _ k (le_refl _), transmitted_all _ v (le_refl _)]
  refine ⟨hw, ?_⟩
  rw [hw, client_reads_frame o cos k v hk hv hcs hcc hr0 hr1 hr2 v.length hr3 (by omega)]
  simp

/-- The run the claim names: key `"name"`, value `"John Doe"`, every `send` and
`recv` complete; the client retrieves exactly `("name", "John Doe")`. -/
theorem stream_round_trip_witness :
    (UnixDomainSocketServer.key.length < 2 ^ 64 ∧ UnixDomainSocketServer.value.length < 2 ^ 64 ∧
      0 ≤ serverOsOk.socket ∧ serverOsOk.bind_refused = false ∧ 0 ≤ serverOsOk.listen ∧
      0 ≤ serverOsOk.accept ∧ serverOsOk.send 0 8 = 8 ∧
      serverOsOk.send 1 UnixDomainSocketServer.key.length = UnixDomainSocketServer.key.length ∧
      serverOsOk.send 2 8 = 8 ∧
      serverOsOk.send 3 UnixDomainSocketServer.value.length
        = UnixDomainSocketServer.value.length ∧
      (∀ i, i < 4 → serverOsOk.sigpipe i = false) ∧
      0 ≤ clientOsOk.socket ∧ 0 ≤ clientOsOk.connect ∧ clientOsOk.recv 0 8 = 8 ∧
      clientOsOk.recv 1 UnixDomainSocketServer.key.length = UnixDomainSocketServer.key.length ∧
      clientOsOk.recv 2 8 = 8 ∧
      clientOsOk.recv 3 UnixDomainSocketServer.value.length
        = UnixDomainSocketServer.value.length) ∧
    (UnixDomainSocketServer.main .little serverOsOk []).wire
      = [4, 0, 0, 0, 0, 0, 0, 0, 110, 97, 109, 101,
         8, 0, 0, 0, 0, 0, 0, 0, 74, 111, 104, 110, 32, 68, 111, 101] ∧
    UnixDomainSocketClient.main .little clientOsOk
        (UnixDomainSocketServer.main .little serverOsOk []).wire
      = ⟨0, some (UnixDomainSocketServer.key, UnixDomainSocketServer.value)⟩ :=
  ⟨by decide,
    stream_round_trip .little serverOsOk clientOsOk [] UnixDomainSocketServer.key
      UnixDomainSocketServer.value (by decide) (by decide) (by decide) rfl (by decide)
      (by decide) (by decide) (by decide) (by decide) (by decide) (by decide) (by decide)
      (by decide) (by decide) (by decide) (by decide) (by decide)⟩

/-- C3 as stated is false: the stream of `"name"` / `"John Doe"` is delivered
with the first three `recv` calls complete and the fourth returning 3 of the 8
bytes requested.  The client does not call `recv` again: it retrieves the value
`"Joh"` followed by five zero bytes.  Both byte orders. -/
theorem client_takes_short_recv_as_complete :
    (1 ≤ clientOsShortValue.recv 3 8 ∧ clientOsShortValue.recv 3 8 ≤ 8) ∧
    (clientOsShortValue.recv 0 8 = 8 ∧ clientOsShortValue.recv 1 4 = 4 ∧
      clientOsShortValue.recv 2 8 = 8) ∧
    UnixDomainSocketClient.main .little clientOsShortValue
        (sizeBytes .little 4 ++ UnixDomainSocketServer.key ++ sizeBytes .little 8
          ++ UnixDomainSocketServer.value)
      = ⟨0, some (UnixDomainSocketServer.key, [74, 111, 104, 0, 0, 0, 0, 0])⟩ ∧
    UnixDomainSocketClient.main .big clientOsShortValue
        (sizeBytes .big 4 ++ UnixDomainSocketServer.key ++ sizeBytes .big 8
          ++ UnixDomainSocketServer.value)
      = ⟨0, some (UnixDomainSocketServer.key, [74, 111, 104, 0, 0, 0, 0, 0])⟩ ∧
    ([74, 111, 104, 0, 0, 0, 0, 0] : List Byte) ≠ UnixDomainSocketServer.value := by
  decide

/-- C3 amended: the client calls `recv` once per field and takes what that one
call delivered as the whole field.  For every key `k` and value `v`, on the
stream `[len(k)][k][len(v)][v]`: if the first three `recv` calls deliver the
count requested and the fourth delivers `r` of the `len(v)` bytes requested,
the client retrieves `k` and the first `r` bytes of `v` followed by
`len(v) - r` zero bytes; so it reconstructs exactly `(k, v)` when every `recv`
delivers the count requested. -/
theorem client_one_recv_per_field (o : ByteOrder) (os : UnixDomainSocketClient.Os)
    (k v : List Byte) (r : Nat)
    (hk : k.length < 2 ^ 64) (hv : v.length < 2 ^ 64)
    (hcs : 0 ≤ os.socket) (hcc : 0 ≤ os.connect)
    (hr0 : os.recv 0 8 = 8) (hr1 : os.recv 1 k.length = k.length) (hr2 : os.recv 2 8 = 8)
    (hr3 : os.recv 3 v.length = r) (hr : r ≤ v.length) :
    UnixDomainSocketClient.main o os (sizeBytes o k.length ++ k ++ sizeBytes o v.length ++ v)
      = ⟨0, some (k, v.take r ++ List.replicate (v.length - r) 0)⟩ ∧
    (r = v.length →
      UnixDomainSocketClient.main o os (sizeBytes o k.length ++ k ++ sizeBytes o v.length ++ v)
        = ⟨0, some (k, v)⟩) := by
  have h := client_reads_frame o os k v hk hv hcs hcc hr0 hr1 hr2 r hr3 (by omega)
  have hmin : min r v.length = r := by omega
  have h1 : UnixDomainSocketClient.main o os
      (sizeBytes o k.length ++ k ++ sizeBytes o v.length ++ v)
      = ⟨0, some (k, v.take r ++ List.replicate (v.length - r) 0)⟩ := by
    rw [h]
    simp [hmin]
  refine ⟨h1, fun hfull => ?_⟩
  rw [h1, hfull]
  simp

/-- The stream of `"name"` / `"John Doe"` with every `recv` complete: the
hypotheses hold and the client retrieves exactly `("name", "John Doe")`. -/
theorem client_one_recv_per_field_witness :
    (UnixDomainSocketServer.key.length < 2 ^ 64 ∧ UnixDomainSocketServer.value.length < 2 ^ 64 ∧
      0 ≤ clientOsOk.socket ∧ 0 ≤ clientOsOk.connect ∧ clientOsOk.recv 0 8 = 8 ∧
      clientOsOk.recv 1 UnixDomainSocketServer.key.length = UnixDomainSocketServer.key.length ∧
      clientOsOk.recv 2 8 = 8 ∧
      clientOsOk.recv 3 UnixDomainSocketServer.value.length = (8 : Nat) ∧
      8 ≤ UnixDomainSocketServer.value.length) ∧
    UnixDomainSocketClient.main .little clientOsOk
        (sizeBytes .little UnixDomainSocketServer.key.length ++ UnixDomainSocketServer.key
          ++ sizeBytes .little UnixDomainSocketServer.value.length
          ++ UnixDomainSocketServer.value)
      = ⟨0, some (UnixDomainSocketServer.key, UnixDomainSocketServer.value)⟩ :=
  ⟨by decide,
    (client_one_recv_per_field .little clientOsOk UnixDomainSocketServer.key
      UnixDomainSocketServer.value 8 (by decide) (by decide) (by decide) (by decide)
      (by decide) (by decide) (by decide) (by decide) (by decide)).2 (by decide)⟩

/-- C7, a run the claim covers: every system call up to `accept` succeeds, the
`send` of the key length returns `-1`, the other three succeed.  `main` still
returns 0, after transmitting the key, the value length and the value: a
failed `send` only prints a message. -/
theorem server_returns_zero_after_failed_send :
    serverOsFirstSendFails.send 0 8 < 0 ∧
    (UnixDomainSocketServer.main .little serverOsFirstSendFails []).status = some 0 ∧
    (UnixDomainSocketServer.main .big serverOsFirstSendFails []).status = some 0 ∧
    (UnixDomainSocketServer.main .little serverOsFirstSendFails []).wire
      = [110, 97, 109, 101, 8, 0, 0, 0, 0, 0, 0, 0, 74, 111, 104, 110, 32, 68, 111, 101] := by
  decide

/-! ## The endpoint name -/

theorem server_names_when_returned (o : ByteOrder) (os : UnixDomainSocketServer.Os)
    (names : List String) (k v : List Byte) :
    (UnixDomainSocketServer.mainWith o os names k v).bound = true →
    (UnixDomainSocketServer.mainWith o os names k v).status ≠ none →
    ∃ ns, (UnixDomainSocketServer.mainWith o os names k v).names
      = unlink ns UnixDomainSocketServer.SOCKET_PATH := by
  unfold UnixDomainSocketServer.mainWith
  simp only []
  split_ifs
  · intro h; simp at h
  · intro h; simp at h
  · intro _ _; exact ⟨_, rfl⟩
  · intro _ _; exact ⟨_, rfl⟩
  · intro _ h; exact absurd rfl h
  · intro _ h; exact absurd rfl h
  · intro _ h; exact absurd rfl h
  · intro _ h; exact absurd rfl h
  · intro _ _; exact ⟨_, rfl⟩

theorem listener_names_when_bound (os : BenchmarkServer.SocketOs) (names : List String) :
    (BenchmarkServer.setup_unix_socket os names).bound = true →
    (BenchmarkServer.setup_unix_socket os names).fd < 0 →
    ∃ ns, (BenchmarkServer.setup_unix_socket os names).names
      = unlink ns BenchmarkServer.SOCKET_PATH := by
  unfold BenchmarkServer.setup_unix_socket
  simp only []
  split_ifs with h1 h2 h3
  · intro h; simp at h
  · intro h; simp at h
  · intro _ _; exact ⟨_, rfl⟩
  · intro _ hfd
    exact absurd hfd h1

theorem benchmark_names_when_returned (o : ByteOrder) (shmOs : BenchmarkServer.ShmOs)
    (os : BenchmarkServer.SocketOs) (rand : Nat → Nat) (fuel : Nat) (shm : Mem)
    (names : List String) (argc : Nat) (mode : String) (data_size_kb : Nat)
    (e : BenchmarkServer.Exit)
    (hrun : BenchmarkServer.main o shmOs os rand fuel shm names argc mode data_size_kb = some e)
    (h : e.bound = true) (hret : e.status ≠ none) :
    ∃ ns, e.names = unlink ns BenchmarkServer.SOCKET_PATH := by
  unfold BenchmarkServer.main at hrun
  simp only [] at hrun
  by_cases h1 : argc < 3
  · rw [if_pos h1] at hrun
    cases hrun; simp at h
  · rw [if_neg h1] at hrun
    by_cases h2 : mode = "shm"
    · rw [if_pos h2] at hrun
      split at hrun
      · cases hrun; simp at h
      · split_ifs at hrun <;> (cases hrun; simp at h)
    · rw [if_neg h2] at hrun
      by_cases h3 : mode = "socket"
      · rw [if_pos h3] at hrun
        by_cases h4 : (BenchmarkServer.setup_unix_socket os names).fd < 0
        · rw [if_pos h4] at hrun
          cases hrun
          exact listener_names_when_bound os names h h4
        · rw [if_neg h4] at hrun
          by_cases h5 : os.accept < 0
          · rw [if_pos h5] at hrun
            cases hrun
            exact ⟨_, rfl⟩
          · rw [if_neg h5] at hrun
            split at hrun
            · cases hrun
              exact absurd rfl hret
            · split at hrun
              · cases hrun
              · cases hrun; exact ⟨_, rfl⟩
              · cases hrun; exact ⟨_, rfl⟩
      · rw [if_neg h3] at hrun
        cases hrun; simp at h

/-- C9 as stated is false: the client connects and closes the connection at
once.  `bind`, `listen` and `accept` succeed, and the first `send` of the
stream server, and likewise of the benchmark in socket mode, raises `SIGPIPE`:
the process ends inside that call, `main` does not return and no `unlink` is
reached.  The endpoint name is still in the namespace and a later `bind` of
it fails. -/
theorem endpoint_name_left_after_sigpipe :
    ((UnixDomainSocketServer.main .little serverOsPeerClosed []).bound = true ∧
      (UnixDomainSocketServer.main .little serverOsPeerClosed []).status = none ∧
      UnixDomainSocketServer.SOCKET_PATH
        ∈ (UnixDomainSocketServer.main .little serverOsPeerClosed []).names ∧
      (bind false (UnixDomainSocketServer.main .little serverOsPeerClosed []).names
        UnixDomainSocketServer.SOCKET_PATH).1 = -1) ∧
    (BenchmarkServer.main .little shmOsOk benchOsPeerClosed (fun _ => 0) 1 zeroMem [] 3
        "socket" 0 = some ⟨none, zeroMem, [], [BenchmarkServer.SOCKET_PATH], true⟩ ∧
      BenchmarkServer.SOCKET_PATH ∈ [BenchmarkServer.SOCKET_PATH] ∧
      (bind false [BenchmarkServer.SOCKET_PATH] BenchmarkServer.SOCKET_PATH).1 = -1) := by
  refine ⟨by decide, ?_, by decide, by decide⟩
  rfl

/-- C9 amended: the endpoint name is released whenever `main` returns.  With
the socket namespace as explicit state: on every run of the stream server in
which `bind` succeeded and `main` returns (after a failed `listen`, a failed
`accept`, `send` calls that returned a negative value, or normal completion),
the name `SOCKET_PATH` is absent from the namespace at that point and a later
`bind` of that name succeeds; the same holds for every run of the benchmark's
`main` that returns after `bind` succeeded in `setup_unix_socket`.  Runs that
`SIGPIPE` ends inside a `send` are not covered. -/
theorem endpoint_name_released_when_main_returns (o : ByteOrder)
    (os : UnixDomainSocketServer.Os)
    (names : List String) (shmOs : BenchmarkServer.ShmOs) (bos : BenchmarkServer.SocketOs)
    (rand : Nat → Nat) (fuel : Nat) (shm : Mem) (bnames : List String) (argc : Nat)
    (mode : String) (data_size_kb : Nat) (e : BenchmarkServer.Exit)
    (hbound : (UnixDomainSocketServer.main o os names).bound = true)
    (hret : (UnixDomainSocketServer.main o os names).status ≠ none)
    (hrun : BenchmarkServer.main o shmOs bos rand fuel shm bnames argc mode data_size_kb = some e)
    (hebound : e.bound = true) (heret : e.status ≠ none) :
    (UnixDomainSocketServer.SOCKET_PATH ∉ (UnixDomainSocketServer.main o os names).names ∧
      (bind false (UnixDomainSocketServer.main o os names).names
        UnixDomainSocketServer.SOCKET_PATH).1 = 0) ∧
    (BenchmarkServer.SOCKET_PATH ∉ e.names ∧
      (bind false e.names BenchmarkServer.SOCKET_PATH).1 = 0) := by
  obtain ⟨ns, h1⟩ := server_names_when_returned o os names _ _ hbound hret
  obtain ⟨bs, h2⟩ := benchmark_names_when_returned o shmOs bos rand fuel shm bnames argc mode
    data_size_kb e hrun hebound heret
  have h1 : (UnixDomainSocketServer.main o os names).names
      = unlink ns UnixDomainSocketServer.SOCKET_PATH := h1
  rw [h1, h2, bind_after_unlink, bind_after_unlink]
  exact ⟨⟨not_mem_unlink _ _, rfl⟩, ⟨not_mem_unlink _ _, rfl⟩⟩

/-- A stream server run whose first `send` returns `-1` and a benchmark run in
socket mode that sends an empty payload (size 0 KB) completely, both in a
namespace that held a stale endpoint: `main` returns and the name is absent
afterwards. -/
theorem endpoint_name_released_when_main_returns_witness :
    ((UnixDomainSocketServer.main .little serverOsFirstSendFails
        [UnixDomainSocketServer.SOCKET_PATH]).bound = true ∧
      (UnixDomainSocketServer.main .little serverOsFirstSendFails
        [UnixDomainSocketServer.SOCKET_PATH]).status ≠ none ∧
      (BenchmarkServer.main .little shmOsOk benchOsOk (fun _ => 0) 1 zeroMem
        [BenchmarkServer.SOCKET_PATH] 3 "socket" 0
          = some ⟨some (.ok 0), zeroMem, [0, 0, 0, 0, 0, 0, 0, 0], [], true⟩) ∧
      (⟨some (.ok 0), zeroMem, [0, 0, 0, 0, 0, 0, 0, 0], [], true⟩
        : BenchmarkServer.Exit).bound = true ∧
      (⟨some (.ok 0), zeroMem, [0, 0, 0, 0, 0, 0, 0, 0], [], true⟩
        : BenchmarkServer.Exit).status ≠ none) ∧
    (UnixDomainSocketServer.SOCKET_PATH ∉ (UnixDomainSocketServer.main .little
        serverOsFirstSendFails [UnixDomainSocketServer.SOCKET_PATH]).names ∧
      (bind false (UnixDomainSocketServer.main .little serverOsFirstSendFails
        [UnixDomainSocketServer.SOCKET_PATH]).names UnixDomainSocketServer.SOCKET_PATH).1 = 0) ∧
    (BenchmarkServer.SOCKET_PATH ∉ (⟨some (.ok 0), zeroMem, [0, 0, 0, 0, 0, 0, 0, 0], [], true⟩
        : BenchmarkServer.Exit).names ∧
      (bind false (⟨some (.ok 0), zeroMem, [0, 0, 0, 0, 0, 0, 0, 0], [], true⟩
        : BenchmarkServer.Exit).names BenchmarkServer.SOCKET_PATH).1 = 0) :=
  ⟨⟨by decide, by decide, by rfl, rfl, by decide⟩,
    endpoint_name_released_when_main_returns .little serverOsFirstSendFails
      [UnixDomainSocketServer.SOCKET_PATH] shmOsOk benchOsOk (fun _ => 0) 1 zeroMem
      [BenchmarkServer.SOCKET_PATH] 3 "socket" 0
      ⟨some (.ok 0), zeroMem, [0, 0, 0, 0, 0, 0, 0, 0], [], true⟩ (by decide) (by decide)
      (by rfl) rfl (by decide)⟩

end IPC
